import Mathlib

/-!
Verification development for the railway-image-service repository.

The definitions below are a shallow embedding of the Go source:

* `toRecord?` / `fromRecord`    — the record codec (internal/app/keyval, `toRecord`/`fromRecord`);
  `toRecord?` returns `none` exactly when the Go code would panic (out-of-range slice).
* `kvGet` / `kvPut` / `kvDel`   — the ordered key-value index (leveldb point ops), modelled as an
  association list of (key, raw value bytes); `kvPut` overwrites, `kvDel` removes.
* `write` / `deleteOp` / `serveGetHead` / `queryHandler` — the blob-store server
  (internal/app/keyval/server.go: `Write`, `Delete`, `ServeHTTP` GET/HEAD branch, `QueryHandler`).
  Filesystem contents are part of `KVState`; `KeyToPath` is injective in the key (it embeds
  `hex(key)`), so blob files are indexed by their key.  Injected I/O and index failures are
  explicit booleans (`Faults`); deferred cleanups (`os.Remove` of the temp file, the rollback
  `db.Delete`) are modelled as succeeding, which is how the Go code treats them (errors ignored).
* `verifyAccess` / `signURL` / `serveSign` — the access gate and the two URL signers
  (middleware `NewVerifyAccess`, client/sign/sign.go `SignURL`, internal/app/signature
  `Signature.ServeHTTP`).  The HMAC-SHA256/base64url primitive (`sign.Sign`'s hash) and
  `crypto/md5` are external libraries and appear as function parameters (`mac`, `KVConfig.md5`);
  everything layered on top of them (message construction, slash trimming, lowercase hex
  rendering, dispatch) is concrete.

Go strings and byte slices are both modelled as `List Char` (`Str`) — every string operation the
source performs on them (prefix tests, index slicing) is byte-wise, and all constants involved are
ASCII, where bytes and characters coincide.  Raw request/file bodies are `List Nat` (`Bytes`).
-/

namespace RailwayImages

abbrev Str := List Char
abbrev Bytes := List Nat

/-! ### Association-list store (leveldb point operations) -/

/-- Point lookup in the index: first binding of the key, as leveldb `Get`. -/
def kvGet {α : Type} : List (Str × α) → Str → Option α
  | [], _ => none
  | (k', v') :: rest, k => if k' = k then some v' else kvGet rest k

/-- Point write, as leveldb `Put`: overwrite the binding if present, append otherwise. -/
def kvPut {α : Type} : List (Str × α) → Str → α → List (Str × α)
  | [], k, v => [(k, v)]
  | (k', v') :: rest, k, v => if k' = k then (k, v) :: rest else (k', v') :: kvPut rest k v

/-- Point delete, as leveldb `Delete`: remove every binding of the key. -/
def kvDel {α : Type} : List (Str × α) → Str → List (Str × α)
  | [], _ => []
  | (k', v') :: rest, k => if k' = k then kvDel rest k else (k', v') :: kvDel rest k

/-! ### Record codec (internal/app/keyval: `toRecord`, `fromRecord`) -/

/-- Tombstone states: the Go constants `NO = 0`, `SOFT = 1`, `HARD = 2`. -/
inductive Tomb where
  | NO
  | SOFT
  | HARD
deriving DecidableEq

/-- One index record: `Record{Deleted int; Hash string}`. -/
structure Record where
  deleted : Tomb
  hash : Str
deriving DecidableEq

/-- The literal `"DELETED"` marker. -/
def deletedTag : Str := ['D', 'E', 'L', 'E', 'T', 'E', 'D']

/-- The literal `"HASH"` marker. -/
def hashTag : Str := ['H', 'A', 'S', 'H']

/-- `strings.HasPrefix(s, pre)`. -/
def hasPre : Str → Str → Bool
  | [], _ => true
  | _ :: _, [] => false
  | a :: as, b :: bs => if a = b then hasPre as bs else false

/-- `strings.TrimPrefix(s, pre)`: drop `pre` when it is a leading segment of `s`. -/
def trimPre (pre s : Str) : Str :=
  if hasPre pre s then s.drop pre.length else s

/-- Go `toRecord(data []byte) Record`.  `none` models the Go panic: after stripping an optional
`"DELETED"` marker, a remainder that begins with `"HASH"` but is shorter than 36 bytes makes
`ss[4:36]` an out-of-range slice. -/
def toRecord? (data : Str) : Option Record :=
  let ss := if hasPre deletedTag data then data.drop 7 else data
  let del := if hasPre deletedTag data then Tomb.SOFT else Tomb.NO
  if hasPre hashTag ss then
    if 36 ≤ ss.length then some ⟨del, (ss.drop 4).take 32⟩ else none
  else
    some ⟨del, []⟩

/-- Go `fromRecord(rec Record) ([]byte, error)`; `none` is the `HARD` error return. -/
def fromRecord (rec : Record) : Option Str :=
  if rec.deleted = Tomb.HARD then none
  else
    some ((if rec.deleted = Tomb.SOFT then deletedTag else []) ++
      (if rec.hash.length = 32 then hashTag ++ rec.hash else []))

/-! ### Lowercase hex rendering (`fmt.Sprintf("%x", h.Sum(nil))`) -/

/-- One lowercase hex digit for a value below 16. -/
def hexDigit (n : Nat) : Char :=
  if n < 10 then Char.ofNat ('0'.toNat + n) else Char.ofNat ('a'.toNat + (n - 10))

/-- `%x` of a byte slice: two lowercase hex digits per byte. -/
def hexBytes : Bytes → Str
  | [] => []
  | b :: bs => hexDigit (b / 16) :: hexDigit (b % 16) :: hexBytes bs

/-! ### Blob-store state and configuration (internal/app/keyval) -/

/-- Server configuration relevant to the claims: the upload cap, the mime allow-list, the
soft-delete policy flag, plus the two external library functions the store calls:
`detect` is `mimetype.Detect(...).String()` and `md5` is the `crypto/md5` digest (16 bytes,
recorded in `md5Len`). -/
structure KVConfig where
  maxFileSize : Nat
  allowedMimeTypes : List Str
  softDelete : Bool
  detect : Bytes → Str
  md5 : Bytes → Bytes
  md5Len : ∀ b, (md5 b).length = 16

/-- The observable store state: the leveldb index (raw record bytes per key) and the blob files
on disk.  `KeyToPath` maps a key to `/<b0>/<b1>/<hex(key)>`, which is injective in the key, so
blob files are indexed here by the key itself. -/
structure KVState where
  db : List (Str × Str)
  files : List (Str × Bytes)
deriving DecidableEq

/-- `KeyVal.GetRecord`: a missing key reads as a `HARD` record with an empty hash; otherwise the
stored bytes are decoded with `toRecord` (`none` models the decode panic). -/
def getRecord? (s : KVState) (key : Str) : Option Record :=
  match kvGet s.db key with
  | none => some ⟨Tomb.HARD, []⟩
  | some data => toRecord? data

/-- `KeyVal.PutRecord`: encode with `fromRecord` and write to the index.  `none` is the Go error
return (encode failure, or an injected index-write failure), which leaves the index unchanged. -/
def putRecord (s : KVState) (key : Str) (rec : Record) (fail : Bool) : Option KVState :=
  match fromRecord rec with
  | none => none
  | some data => if fail then none else some { s with db := kvPut s.db key data }

/-- Injectable failures for `Write`, one per error-checked step of the Go code. -/
structure Faults where
  putReserve : Bool
  mkdir : Bool
  createTemp : Bool
  copyFail : Bool
  syncFail : Bool
  renameFail : Bool
  putFinal : Bool
deriving DecidableEq

/-- No injected failures. -/
def noFaults : Faults := ⟨false, false, false, false, false, false, false⟩

/-- Result of `KeyVal.Write`: the HTTP status, the state when it returns, and whether the temp
file created by this call still exists at return. -/
structure WriteResult where
  status : Nat
  state : KVState
  tempRemains : Bool
deriving DecidableEq

/-- The deferred rollback in `Write`: when the record was reserved (`recordNotFound`), a failed
write deletes the reservation (`k.db.Delete(key, nil)`). -/
def wrRollback (s : KVState) (key : Str) (wasAbsent : Bool) : KVState :=
  if wasAbsent then { s with db := kvDel s.db key } else s

/-- The bytes `Write` actually reads from the body: the stream is capped by
`io.LimitReader(value, maxFileSize+1)`. -/
def readBytes (cfg : KVConfig) (v : Bytes) : Bytes :=
  v.take (cfg.maxFileSize + 1)

/-- The sniffing buffer: `io.ReadFull(teeReader, prefix)` with a 512-byte buffer reads
`min 512 (length of the capped stream)` bytes. -/
def sniffLen (cfg : KVConfig) (v : Bytes) : Nat :=
  min 512 (readBytes cfg v).length

/-- The mime gate of `Write`: `mimetype.Detect` on the sniffed bytes, accepted when some entry of
the allow-list is a leading segment of the detected type. -/
def mimeOk (cfg : KVConfig) (v : Bytes) : Bool :=
  cfg.allowedMimeTypes.any fun a => hasPre a (cfg.detect ((readBytes cfg v).take (sniffLen cfg v)))

/-- Steps of `KeyVal.Write` after the reservation: directory creation, temp file, body streaming
with mime sniffing and the size cap, fsync, rename, final record write.  `s1` is the state after
the reservation step and `wasAbsent` records whether the key had no record before the call.  The
deferred `os.Remove(tmpFile.Name())` runs on every path, so no temp file ever remains. -/
def writeBody (cfg : KVConfig) (s1 : KVState) (key : Str) (v : Bytes) (f : Faults)
    (wasAbsent : Bool) : WriteResult :=
  if f.mkdir then ⟨500, wrRollback s1 key wasAbsent, false⟩ else
  if f.createTemp then ⟨500, wrRollback s1 key wasAbsent, false⟩ else
  if sniffLen cfg v = 0 then ⟨400, wrRollback s1 key wasAbsent, false⟩ else
  if mimeOk cfg v then
    if f.copyFail then ⟨500, wrRollback s1 key wasAbsent, false⟩ else
    if cfg.maxFileSize ≤ (readBytes cfg v).length then ⟨413, wrRollback s1 key wasAbsent, false⟩ else
    if f.syncFail then ⟨500, wrRollback s1 key wasAbsent, false⟩ else
    if f.renameFail then ⟨500, wrRollback s1 key wasAbsent, false⟩ else
    match putRecord { s1 with files := kvPut s1.files key (readBytes cfg v) } key
        ⟨Tomb.NO, hexBytes (cfg.md5 (readBytes cfg v))⟩ f.putFinal with
    | none =>
      ⟨500, wrRollback { s1 with files := kvPut s1.files key (readBytes cfg v) } key wasAbsent, false⟩
    | some s3 => ⟨201, s3, false⟩
  else ⟨415, wrRollback s1 key wasAbsent, false⟩

/-- `KeyVal.Write(key, value, valueLen)`: the declared-length check, the reservation of an absent
key as a `SOFT` record with empty hash, then `writeBody`.  `none` models a panic while decoding
the pre-existing record bytes. -/
def write (cfg : KVConfig) (s : KVState) (key : Str) (v : Bytes) (valueLen : Int) (f : Faults) :
    Option WriteResult :=
  if (cfg.maxFileSize : Int) < valueLen then some ⟨413, s, false⟩ else
  match getRecord? s key with
  | none => none
  | some rec0 =>
    if rec0.deleted = Tomb.HARD then
      match putRecord s key ⟨Tomb.SOFT, []⟩ f.putReserve with
      | none => some ⟨500, s, false⟩
      | some s1 => some (writeBody cfg s1 key v f true)
    else some (writeBody cfg s key v f false)

/-- Result of the GET/HEAD branch of `KeyVal.ServeHTTP`: status, the `Content-Md5` header when
set, and the bytes sent (GET only). -/
structure ServeResult where
  status : Nat
  contentMd5 : Option Str
  body : Option Bytes
deriving DecidableEq

/-- The GET/HEAD branch of `KeyVal.ServeHTTP`: read the record, set `Content-Md5` whenever the
stored hash is non-empty, 404 for `SOFT`/`HARD` records and for a missing blob file, otherwise
200 with the file bytes (GET) or no body (HEAD). -/
def serveGetHead (s : KVState) (key : Str) (isGet : Bool) : Option ServeResult :=
  match getRecord? s key with
  | none => none
  | some rec =>
    let hdr := if rec.hash.length ≠ 0 then some rec.hash else none
    if rec.deleted = Tomb.SOFT ∨ rec.deleted = Tomb.HARD then some ⟨404, hdr, none⟩
    else
      match kvGet s.files key with
      | none => some ⟨404, hdr, none⟩
      | some bs => some ⟨200, hdr, if isGet then some bs else none⟩

/-- `KeyVal.Delete(key, unlink)`: 404 for `HARD` (or `SOFT` under `unlink`), 403 under the
soft-delete policy, else a `SOFT` tombstone (keeping the hash); without `unlink` the blob file is
then removed (500 when absent) and the record hard-deleted. -/
def deleteOp (cfg : KVConfig) (s : KVState) (key : Str) (unlink : Bool) :
    Option (Nat × KVState) :=
  match getRecord? s key with
  | none => none
  | some rec =>
    if rec.deleted = Tomb.HARD ∨ (unlink ∧ rec.deleted = Tomb.SOFT) then some (404, s)
    else if ¬unlink ∧ cfg.softDelete = true ∧ rec.deleted = Tomb.NO then some (403, s)
    else
      match putRecord s key ⟨Tomb.SOFT, rec.hash⟩ false with
      | none => some (500, s)
      | some s1 =>
        if unlink then some (204, s1)
        else
          match kvGet s1.files key with
          | none => some (500, s1)
          | some _ => some (204, ⟨kvDel s1.db key, kvDel s1.files key⟩)

/-! ### Prefix listing (`KeyVal.QueryHandler`) -/

/-- Byte-wise lexicographic strict order on keys, as leveldb's default comparer. -/
def listLt : Str → Str → Bool
  | [], [] => false
  | [], _ :: _ => true
  | _ :: _, [] => false
  | a :: as, b :: bs =>
    if a.toNat < b.toNat then true else if b.toNat < a.toNat then false else listLt as bs

/-- `util.BytesPrefix(prefix).Limit`: copy up to the rightmost byte below `0xff` and increment
it; `none` (no upper bound) when every byte is `0xff` or the input is empty. -/
def rangeUpper : Str → Option Str
  | [] => none
  | c :: cs =>
    match rangeUpper cs with
    | some l => some (c :: l)
    | none => if c.toNat < 255 then some [Char.ofNat (c.toNat + 1)] else none

/-- Membership of a key in the iterator's `[lower, upper)` range. -/
def inRange (k lower : Str) (upper : Option Str) : Bool :=
  !listLt k lower && (match upper with | none => true | some u => listLt k u)

/-- Response of `QueryHandler`: status, the listed keys, and the `starting_at` cursor attached to
`next_page` (`[]` when no further page; `has_more` in the JSON body is `next ≠ ""`). -/
structure QueryOut where
  status : Nat
  keys : List Str
  next : Str
deriving DecidableEq

/-- The iteration loop of `QueryHandler` over the range's entries (in ascending key order):
decode each record, skip by the filter expression
`(rec.Deleted != NO) || (rec.Deleted != SOFT && unlinkedOpOk)`, guard the 1000-key cap, collect,
and truncate once `limit` is exceeded, remembering the current key as cursor.  `none` models a
decode panic. -/
def queryLoop (unlinked : Bool) (limit : Int) :
    List (Str × Str) → List Str → Option QueryOut
  | [], keys => some ⟨200, keys, []⟩
  | (k, val) :: rest, keys =>
    match toRecord? val with
    | none => none
    | some rec =>
      if rec.deleted ≠ Tomb.NO ∨ (rec.deleted ≠ Tomb.SOFT ∧ unlinked) then
        queryLoop unlinked limit rest keys
      else if 1000 < keys.length then some ⟨413, [], []⟩
      else
        if 0 < limit ∧ limit < ((keys ++ [k]).length : Int) then
          some ⟨200, (keys ++ [k]).take limit.toNat, k⟩
        else queryLoop unlinked limit rest (keys ++ [k])

/-- `KeyVal.QueryHandler` over an index snapshot `db` listed in ascending key order: the iterator
range is `BytesPrefix(prefix)` with its start replaced by `starting_at` when non-empty. -/
def queryHandler (db : List (Str × Str)) (pre start : Str) (limit : Int) (unlinked : Bool) :
    Option QueryOut :=
  let lower := if start ≠ [] then start else pre
  queryLoop unlinked limit (db.filter fun e => inRange e.1 lower (rangeUpper pre)) []

/-! ### Signing and access verification (client/sign, middleware, internal/app/signature) -/

/-- `sign.Sign(key, secret)`: strip one leading `/`, then apply the HMAC-SHA256/base64url
primitive `mac` (external crypto, a parameter). -/
def signMsg (mac : Str → Str → Str) (key secret : Str) : Str :=
  mac (trimPre ['/'] key) secret

/-- One decimal digit value, `none` for non-digits. -/
def digitVal? (c : Char) : Option Nat :=
  if '0' ≤ c ∧ c ≤ '9' then some (c.toNat - '0'.toNat) else none

/-- Value of a non-empty all-digit string. -/
def digitsVal? : Str → Option Nat
  | [] => none
  | s =>
    s.foldl
      (fun acc c =>
        match acc, digitVal? c with
        | some a, some d => some (a * 10 + d)
        | _, _ => none)
      (some 0)

/-- `strconv.ParseInt(s, 10, 64)`: optional sign, non-empty digits, 64-bit range. -/
def parseInt? (s : Str) : Option Int :=
  match s with
  | '+' :: rest =>
    (digitsVal? rest).bind fun n =>
      if n ≤ 9223372036854775807 then some (n : Int) else none
  | '-' :: rest =>
    (digitsVal? rest).bind fun n =>
      if n ≤ 9223372036854775808 then some (-(n : Int)) else none
  | _ =>
    (digitsVal? s).bind fun n =>
      if n ≤ 9223372036854775807 then some (n : Int) else none

/-- `mw.NewVerifyAccess`: the returned status, where 200 stands for `c.Next()` (request
accepted).  API key and signature comparisons are `subtle.ConstantTimeCompare`, i.e. equality.
When both `x-signature` and `x-expire` are present: a malformed expiry is 400, an expired one
(`now_ms > x-expire`) is 401, and otherwise the request passes iff the API key or the signature
over `"<path>:<x-expire>"` matches.  With either parameter missing, only the API key counts. -/
def verifyAccess (mac : Str → Str → Str) (secretKey signSecret : Str)
    (apiKey sig expireAt path : Str) (nowMs : Int) : Nat :=
  if sig ≠ [] ∧ expireAt ≠ [] then
    match parseInt? expireAt with
    | none => 400
    | some em =>
      if em < nowMs then 401
      else if apiKey = secretKey ∨ sig = signMsg mac (path ++ ':' :: expireAt) signSecret then 200
      else 401
  else if apiKey = secretKey then 200 else 401

/-- The `"/sign"` path marker. -/
def signTag : Str := ['/', 's', 'i', 'g', 'n']

/-- The `"/blob"` path marker (client `SignURL`). -/
def blobTag : Str := ['/', 'b', 'l', 'o', 'b']

/-- The `"/serve"` path marker (client `SignURL`). -/
def serveTag : Str := ['/', 's', 'e', 'r', 'v', 'e']

/-- The `"/files"` path marker (server `Signature.ServeHTTP`). -/
def filesTag : Str := ['/', 'f', 'i', 'l', 'e', 's']

/-- The `"/format"` path marker (server `Signature.ServeHTTP`). -/
def formatTag : Str := ['/', 'f', 'o', 'r', 'm', 'a', 't']

/-- `fmt.Sprintf("%d", i)`. -/
def intToStr (i : Int) : Str :=
  if i < 0 then '-' :: Nat.toDigits 10 (-i).toNat else Nat.toDigits 10 i.toNat

/-- A signed URL as far as the claims observe it: the rewritten path and the `x-expire` /
`x-signature` query parameters attached (other query parameters pass through unchanged). -/
structure SignedURL where
  path : Str
  xExpire : Option Int
  xSignature : Str
deriving DecidableEq

/-- `sign.SignURL(url, secret)` (client/sign/sign.go): strip `"/sign"`; a `"/blob"` remainder is
signed over `"<path>:<expiry>"` with `x-expire = now_ms + 1h`; a `"/serve"` remainder is signed
over the path after `"/serve"` with no expiry; anything else is the `invalid path` error
(`none`).  The two markers are mutually exclusive, so the Go overwrite order is immaterial. -/
def signURL (mac : Str → Str → Str) (secret : Str) (nowMs : Int) (path : Str) :
    Option SignedURL :=
  let p := trimPre signTag path
  if ¬hasPre blobTag p ∧ ¬hasPre serveTag p then none
  else if hasPre blobTag p then
    some ⟨p, some (nowMs + 3600000), signMsg mac (p ++ ':' :: intToStr (nowMs + 3600000)) secret⟩
  else some ⟨p, none, signMsg mac (trimPre serveTag p) secret⟩

/-- `Signature.ServeHTTP` (internal/app/signature): same shape as `SignURL` but the expiring
branch is `"/files"` and the non-expiring branch is `"/format"`; anything else is 400 (`none`). -/
def serveSign (mac : Str → Str → Str) (secret : Str) (nowMs : Int) (path : Str) :
    Option SignedURL :=
  let p := trimPre signTag path
  if ¬hasPre filesTag p ∧ ¬hasPre formatTag p then none
  else if hasPre filesTag p then
    some ⟨p, some (nowMs + 3600000), signMsg mac (p ++ ':' :: intToStr (nowMs + 3600000)) secret⟩
  else some ⟨p, none, signMsg mac (trimPre formatTag p) secret⟩

/-! ### Concrete instances used by witnesses and counterexamples -/

/-- A hex digit character (either case), as in an MD5 hex digest. -/
def isHexChar (c : Char) : Bool :=
  decide (('0' ≤ c ∧ c ≤ '9') ∨ ('a' ≤ c ∧ c ≤ 'f') ∨ ('A' ≤ c ∧ c ≤ 'F'))

/-- The remainder of the record bytes after the optional `"DELETED"` marker, exactly as
`toRecord` computes it. -/
def stripDel (d : Str) : Str :=
  if hasPre deletedTag d then d.drop 7 else d

/-- The bytes `PutRecord` stores for a `SOFT` tombstone that keeps hash `h`. -/
def softEncode (h : Str) : Str :=
  deletedTag ++ (if h.length = 32 then hashTag ++ h else [])

/-- A one-key live store used by concrete delete scenarios. -/
def sLive : KVState :=
  ⟨[(['a'], hashTag ++ List.replicate 32 '0')], [(['a'], [1, 2, 3])]⟩

/-- A configuration identical to `cfgW` but with the soft-delete policy flag set. -/
def cfgP : KVConfig :=
  { maxFileSize := 5, allowedMimeTypes := [['i', 'm']], softDelete := true,
    detect := fun _ => ['i', 'm', 'g'], md5 := fun _ => List.replicate 16 0,
    md5Len := fun _ => rfl }

/-- A concrete configuration for witnesses: a 5-byte cap, a detector constantly `"img"`, the
allow-list `["im"]`, policy off, and the all-zero digest standing in for MD5. -/
def cfgW : KVConfig :=
  { maxFileSize := 5, allowedMimeTypes := [['i', 'm']], softDelete := false,
    detect := fun _ => ['i', 'm', 'g'], md5 := fun _ => List.replicate 16 0,
    md5Len := fun _ => rfl }

/-- The empty store. -/
def stateW : KVState := ⟨[], []⟩

/-- The result of a successful 3-byte `Write` of key `"a"` against `cfgW` from the empty store. -/
def writeResW : WriteResult :=
  ⟨201, ⟨[(['a'], hashTag ++ List.replicate 32 '0')], [(['a'], [1, 2, 3])]⟩, false⟩

/-- The result of a `Write` against `cfgW` whose rename step fails: 500, empty store restored. -/
def writeResF : WriteResult := ⟨500, ⟨[], []⟩, false⟩

/-- The fault vector with only the rename step failing. -/
def renameFault : Faults := ⟨false, false, false, false, false, true, false⟩


/-! ### Store lemmas and codec facts shared across claims -/

@[simp] theorem kvGet_kvPut_self {α : Type} (l : List (Str × α)) (k : Str) (v : α) :
    kvGet (kvPut l k v) k = some v := by
  induction l with
  | nil => simp [kvGet, kvPut]
  | cons e rest ih =>
    obtain ⟨k', v'⟩ := e
    by_cases h : k' = k <;> simp [kvGet, kvPut, h, ih]

theorem kvGet_kvPut_ne {α : Type} (l : List (Str × α)) (k k' : Str) (v : α) (h : k' ≠ k) :
    kvGet (kvPut l k v) k' = kvGet l k' := by
  induction l with
  | nil => simp [kvGet, kvPut, Ne.symm h]
  | cons e rest ih =>
    obtain ⟨k₀, v₀⟩ := e
    by_cases h₀ : k₀ = k
    · subst h₀
      simp [kvGet, kvPut, Ne.symm h]
    · by_cases h₁ : k₀ = k' <;> simp [kvGet, kvPut, h₀, h₁, h, ih]

@[simp] theorem kvGet_kvDel_self {α : Type} (l : List (Str × α)) (k : Str) :
    kvGet (kvDel l k) k = none := by
  induction l with
  | nil => simp [kvGet, kvDel]
  | cons e rest ih =>
    obtain ⟨k', v'⟩ := e
    by_cases h : k' = k <;> simp [kvGet, kvDel, h, ih]

theorem kvGet_kvDel_ne {α : Type} (l : List (Str × α)) (k k' : Str) (h : k' ≠ k) :
    kvGet (kvDel l k) k' = kvGet l k' := by
  induction l with
  | nil => simp [kvDel]
  | cons e rest ih =>
    obtain ⟨k₀, v₀⟩ := e
    by_cases h₀ : k₀ = k
    · subst h₀
      simp [kvGet, kvDel, Ne.symm h, ih]
    · by_cases h₁ : k₀ = k' <;> simp [kvGet, kvDel, h₀, h₁, h, ih]

theorem hexBytes_length (bs : Bytes) : (hexBytes bs).length = 2 * bs.length := by
  induction bs with
  | nil => rfl
  | cons b bs ih => simp [hexBytes, ih]; omega


theorem toRecord?_eq (d : Str) :
    toRecord? d =
      if hasPre hashTag (stripDel d) then
        if 36 ≤ (stripDel d).length then
          some ⟨if hasPre deletedTag d then Tomb.SOFT else Tomb.NO, ((stripDel d).drop 4).take 32⟩
        else none
      else some ⟨if hasPre deletedTag d then Tomb.SOFT else Tomb.NO, []⟩ := by
  by_cases h1 : hasPre deletedTag d <;> simp [toRecord?, stripDel, h1]

theorem toRecord?_ne_HARD (d : Str) (rec : Record) (h : toRecord? d = some rec) :
    rec.deleted ≠ Tomb.HARD := by
  rw [toRecord?_eq] at h
  split at h
  · split at h
    · cases h
      by_cases h1 : hasPre deletedTag d <;> simp [h1]
    · exact Option.noConfusion h
  · cases h
    by_cases h1 : hasPre deletedTag d <;> simp [h1]

theorem toRecord?_hash_len (d : Str) (rec : Record) (h : toRecord? d = some rec) :
    rec.hash.length = 0 ∨ rec.hash.length = 32 := by
  rw [toRecord?_eq] at h
  split at h
  case isTrue =>
    split at h
    case isTrue hlen =>
      cases h
      right
      simp only [List.length_take, List.length_drop]
      omega
    case isFalse => exact Option.noConfusion h
  case isFalse =>
    cases h
    left
    rfl

theorem hasPre_refl_app (pre rest : Str) : hasPre pre (pre ++ rest) = true := by
  induction pre with
  | nil => rfl
  | cons c cs ih => simp [hasPre, ih]

theorem fromRecord_roundtrip (rec : Record) (hdel : rec.deleted ≠ Tomb.HARD)
    (hlen : rec.hash.length = 0 ∨ rec.hash.length = 32) :
    (fromRecord rec).bind toRecord? = some rec := by
  obtain ⟨del, hash⟩ := rec
  rcases hlen with hlen | hlen
  · have hh : hash = [] := List.length_eq_zero.mp hlen
    subst hh
    cases del with
    | NO => rfl
    | SOFT => rfl
    | HARD => exact absurd rfl hdel
  · replace hlen : hash.length = 32 := hlen
    have htake : hash.take 32 = hash := by
      rw [← hlen]
      exact List.take_length hash
    cases del with
    | HARD => exact absurd rfl hdel
    | NO =>
      simp only [fromRecord, Option.bind, hlen]
      norm_num
      show toRecord? ('H' :: 'A' :: 'S' :: 'H' :: hash) = some ⟨Tomb.NO, hash⟩
      have hp1 : hasPre deletedTag ('H' :: 'A' :: 'S' :: 'H' :: hash) = false := rfl
      have hp2 : hasPre hashTag ('H' :: 'A' :: 'S' :: 'H' :: hash) = true := by
        have := hasPre_refl_app hashTag hash
        simpa [hashTag] using this
      simp only [toRecord?, hp1, hp2, Bool.false_eq_true, ite_false, ite_true,
        List.length_cons, List.drop]
      rw [if_pos (by omega)]
      simp [htake]
    | SOFT =>
      simp only [fromRecord, Option.bind, hlen]
      norm_num
      show toRecord? ('D' :: 'E' :: 'L' :: 'E' :: 'T' :: 'E' :: 'D' ::
        'H' :: 'A' :: 'S' :: 'H' :: hash) = some ⟨Tomb.SOFT, hash⟩
      have hp1 : hasPre deletedTag ('D' :: 'E' :: 'L' :: 'E' :: 'T' :: 'E' :: 'D' ::
          'H' :: 'A' :: 'S' :: 'H' :: hash) = true := by
        have := hasPre_refl_app deletedTag ('H' :: 'A' :: 'S' :: 'H' :: hash)
        simpa [deletedTag] using this
      have hp2 : hasPre hashTag ('H' :: 'A' :: 'S' :: 'H' :: hash) = true := by
        have := hasPre_refl_app hashTag hash
        simpa [hashTag] using this
      simp only [toRecord?, hp1, hp2, ite_true, List.drop, List.length_cons]
      rw [if_pos (by omega)]
      simp [htake]

/-! ### Claims C7 and C8: the record codec -/

theorem toRecord?_hashTag (h : Str) (hlen : h.length = 32) :
    toRecord? (hashTag ++ h) = some ⟨Tomb.NO, h⟩ := by
  have htake : h.take 32 = h := by
    rw [← hlen]
    exact List.take_length h
  show toRecord? ('H' :: 'A' :: 'S' :: 'H' :: h) = some ⟨Tomb.NO, h⟩
  have hp1 : hasPre deletedTag ('H' :: 'A' :: 'S' :: 'H' :: h) = false := rfl
  have hp2 : hasPre hashTag ('H' :: 'A' :: 'S' :: 'H' :: h) = true := by
    have := hasPre_refl_app hashTag h
    simpa [hashTag] using this
  simp only [toRecord?, hp1, hp2, Bool.false_eq_true, ite_false, ite_true,
    List.length_cons, List.drop]
  rw [if_pos (by omega)]
  simp [htake]

/-- Claim C7: for every legal record — tombstone `LIVE` or `SOFT_DELETED` and hash empty or
exactly 32 hex characters — decoding the encoding returns the record unchanged, and encoding the
`HARD_ABSENT` state fails. -/
theorem record_codec_roundtrip :
    (∀ rec : Record, (rec.deleted = Tomb.NO ∨ rec.deleted = Tomb.SOFT) →
      (rec.hash = [] ∨ (rec.hash.length = 32 ∧ rec.hash.all isHexChar = true)) →
      (fromRecord rec).bind toRecord? = some rec) ∧
    (∀ rec : Record, rec.deleted = Tomb.HARD → fromRecord rec = none) := by
  constructor
  · intro rec hdel hhash
    apply fromRecord_roundtrip
    · rcases hdel with h | h <;> simp [h]
    · rcases hhash with h | h
      · left
        simp [h]
      · right
        exact h.1
  · intro rec h
    simp [fromRecord, h]

/-- Witness for C7 at a concrete soft-deleted record with a 32-hex-character hash. -/
theorem record_codec_roundtrip_witness :
    (fromRecord ⟨Tomb.SOFT, List.replicate 32 'a'⟩).bind toRecord? =
        some ⟨Tomb.SOFT, List.replicate 32 'a'⟩ ∧
      fromRecord ⟨Tomb.HARD, []⟩ = none :=
  ⟨record_codec_roundtrip.1 _ (by decide) (by decide), record_codec_roundtrip.2 _ rfl⟩

/-- Counterexample to C8 as stated: on the 6-byte input `"HASHab"` the Go `toRecord` does not
return a record — `ss[4:36]` is an out-of-range slice, a runtime panic (`none` in this model);
and on `"HASH"` followed by 32 `'z'` bytes (a malformed, non-hex hash) the decoder returns that
32-byte tail verbatim rather than an empty hash. -/
theorem toRecord_short_hash_panics :
    toRecord? ['H', 'A', 'S', 'H', 'a', 'b'] = none ∧
      toRecord? (hashTag ++ List.replicate 32 'z') = some ⟨Tomb.NO, List.replicate 32 'z'⟩ ∧
      List.replicate 32 'z' ≠ ([] : Str) := by
  refine ⟨by decide, ?_, by decide⟩
  exact toRecord?_hashTag _ (by decide)

/-- Claim C8 (amended): decoding terminates with a record for every input whose remainder after
the optional `"DELETED"` marker either does not begin with `"HASH"` or has at least 36 bytes; an
input with no `"HASH"` tag decodes to an empty hash with the tombstone given by the `"DELETED"`
marker; a `"HASH"` tag with fewer than 36 remaining bytes makes the decoder panic instead of
returning; and the 32 bytes after `"HASH"` are taken verbatim as the hash, without hex
validation. -/
theorem toRecord_totality :
    (∀ d : Str, (hasPre hashTag (stripDel d) = true → 36 ≤ (stripDel d).length) →
        toRecord? d ≠ none) ∧
    (∀ d : Str, hasPre hashTag (stripDel d) = false →
        toRecord? d = some ⟨if hasPre deletedTag d then Tomb.SOFT else Tomb.NO, []⟩) ∧
    (∀ d : Str, hasPre hashTag (stripDel d) = true → (stripDel d).length < 36 →
        toRecord? d = none) ∧
    (∀ h : Str, h.length = 32 → toRecord? (hashTag ++ h) = some ⟨Tomb.NO, h⟩) := by
  refine ⟨?_, ?_, ?_, fun h hlen => toRecord?_hashTag h hlen⟩
  · intro d hguard
    rw [toRecord?_eq d]
    by_cases h1 : hasPre hashTag (stripDel d)
    · rw [if_pos h1, if_pos (hguard h1)]
      simp
    · rw [if_neg h1]
      simp
  · intro d h1
    rw [toRecord?_eq d, if_neg (by simp [h1])]
  · intro d h1 h2
    rw [toRecord?_eq d, if_pos h1, if_neg (by omega)]

/-- Witness for the amended C8: `"DELETEDx"` decodes without panic, and `"xy"` (unknown tag)
decodes to a live record with an empty hash. -/
theorem toRecord_totality_witness :
    toRecord? ['D', 'E', 'L', 'E', 'T', 'E', 'D', 'x'] ≠ none ∧
      toRecord? ['x', 'y'] = some ⟨Tomb.NO, []⟩ := by
  constructor
  · exact toRecord_totality.1 _ (by decide)
  · have := toRecord_totality.2.1 ['x', 'y'] (by decide)
    simpa using this

/-! ### Claim C10: hash disclosure on 404 -/

/-- Claim C10: for a key whose record is `SOFT_DELETED` with a non-empty stored hash, GET and
HEAD answer 404 yet still carry `Content-Md5` equal to the stored hash; an absent (`HARD_ABSENT`)
key answers 404 with no such header (its read-back hash is always empty). -/
theorem soft_deleted_hash_disclosure :
    (∀ (s : KVState) (key d : Str) (rec : Record) (g : Bool),
      kvGet s.db key = some d → toRecord? d = some rec → rec.deleted = Tomb.SOFT →
      rec.hash ≠ [] → serveGetHead s key g = some ⟨404, some rec.hash, none⟩) ∧
    (∀ (s : KVState) (key : Str) (g : Bool),
      kvGet s.db key = none → serveGetHead s key g = some ⟨404, none, none⟩) := by
  constructor
  · intro s key d rec g hd hrec hsoft hhash
    have hlen : rec.hash.length ≠ 0 := fun h => hhash (List.length_eq_zero.mp h)
    simp [serveGetHead, getRecord?, hd, hrec, hsoft, hlen]
  · intro s key g hd
    simp [serveGetHead, getRecord?, hd]

/-- Witness for C10 at a concrete soft-deleted record. -/
theorem soft_deleted_hash_disclosure_witness :
    serveGetHead ⟨[(['a'], deletedTag ++ hashTag ++ List.replicate 32 '0')], []⟩ ['a'] true =
      some ⟨404, some (List.replicate 32 '0'), none⟩ :=
  soft_deleted_hash_disclosure.1 ⟨[(['a'], deletedTag ++ hashTag ++ List.replicate 32 '0')], []⟩
    ['a'] (deletedTag ++ hashTag ++ List.replicate 32 '0') ⟨Tomb.SOFT, List.replicate 32 '0'⟩
    true (by decide) (by decide) rfl (by decide)

/-! ### Claim C1: get-after-put round trip -/

theorem fromRecord_live (h : Str) (hlen : h.length = 32) :
    fromRecord ⟨Tomb.NO, h⟩ = some (hashTag ++ h) := by
  simp [fromRecord, hlen]

theorem md5hex_len (cfg : KVConfig) (b : Bytes) : (hexBytes (cfg.md5 b)).length = 32 := by
  rw [hexBytes_length, cfg.md5Len b]

theorem writeBody_201 (cfg : KVConfig) (s1 : KVState) (key : Str) (v : Bytes) (f : Faults)
    (wa : Bool) (r : WriteResult) (h : writeBody cfg s1 key v f wa = r) (hs : r.status = 201) :
    (readBytes cfg v).length < cfg.maxFileSize ∧
      r.state = { s1 with
        db := kvPut s1.db key (hashTag ++ hexBytes (cfg.md5 (readBytes cfg v))),
        files := kvPut s1.files key (readBytes cfg v) } := by
  unfold writeBody at h
  split at h
  · cases h; simp at hs
  split at h
  · cases h; simp at hs
  split at h
  · cases h; simp at hs
  split at h
  case isFalse => cases h; simp at hs
  split at h
  · cases h; simp at hs
  split at h
  · cases h; simp at hs
  case isFalse hsize =>
  split at h
  · cases h; simp at hs
  split at h
  · cases h; simp at hs
  simp only [putRecord, fromRecord_live _ (md5hex_len cfg (readBytes cfg v))] at h
  by_cases hpf : f.putFinal
  · simp only [hpf, ite_true] at h
    cases h
    simp at hs
  · simp only [hpf, ite_false] at h
    cases h
    exact ⟨by omega, rfl⟩

theorem serve_after_write (cfg : KVConfig) (s1 : KVState) (key : Str) (rd : Bytes) :
    serveGetHead
      { s1 with
        db := kvPut s1.db key (hashTag ++ hexBytes (cfg.md5 rd)),
        files := kvPut s1.files key rd } key true =
      some ⟨200, some (hexBytes (cfg.md5 rd)), some rd⟩ := by
  have h32 : (hexBytes (cfg.md5 rd)).length = 32 := md5hex_len cfg rd
  have hrec : toRecord? (hashTag ++ hexBytes (cfg.md5 rd)) =
      some ⟨Tomb.NO, hexBytes (cfg.md5 rd)⟩ := toRecord?_hashTag _ h32
  simp [serveGetHead, getRecord?, kvGet_kvPut_self, hrec, h32]

/-- Claim C1: whenever `Write(k, v)` returns 201, an immediately following GET of `k` answers
200 with body exactly the bytes of `v` that were stored (all of `v`) and a `Content-Md5` header
equal to the lowercase hex rendering of the MD5 digest of `v`. -/
theorem write_get_roundtrip (cfg : KVConfig) (s : KVState) (key : Str) (v : Bytes)
    (valueLen : Int) (f : Faults) (r : WriteResult)
    (hw : write cfg s key v valueLen f = some r) (hs : r.status = 201) :
    serveGetHead r.state key true = some ⟨200, some (hexBytes (cfg.md5 v)), some v⟩ := by
  have hv : (readBytes cfg v).length < cfg.maxFileSize →
      readBytes cfg v = v := by
    intro hlt
    have := List.length_take (cfg.maxFileSize + 1) v
    unfold readBytes at hlt ⊢
    apply List.take_of_length_le
    rw [List.length_take] at hlt
    omega
  unfold write at hw
  split at hw
  · cases hw; simp at hs
  split at hw
  · exact Option.noConfusion hw
  split at hw
  · split at hw
    · cases hw; simp at hs
    · simp only [Option.some.injEq] at hw
      obtain ⟨hlt, hst⟩ := writeBody_201 cfg _ key v f true r hw hs
      rw [hst, serve_after_write, hv hlt]
  · simp only [Option.some.injEq] at hw
    obtain ⟨hlt, hst⟩ := writeBody_201 cfg _ key v f false r hw hs
    rw [hst, serve_after_write, hv hlt]

/-- Witness for C1: a concrete 201 `Write` followed by a GET. -/
theorem write_get_roundtrip_witness :
    serveGetHead writeResW.state ['a'] true =
      some ⟨200, some (hexBytes (cfgW.md5 [1, 2, 3])), some [1, 2, 3]⟩ :=
  write_get_roundtrip cfgW stateW ['a'] [1, 2, 3] 3 noFaults writeResW (by decide) rfl

/-! ### Claim C2: failed-PUT atomicity -/

theorem getRecord?_HARD (s : KVState) (key : Str) (rec0 : Record)
    (h : getRecord? s key = some rec0) (hd : rec0.deleted = Tomb.HARD) :
    kvGet s.db key = none := by
  unfold getRecord? at h
  split at h
  · assumption
  · exact absurd hd (toRecord?_ne_HARD _ _ h)

theorem writeBody_failure (cfg : KVConfig) (s1 : KVState) (key : Str) (v : Bytes) (f : Faults)
    (wa : Bool) (r : WriteResult) (h : writeBody cfg s1 key v f wa = r) (hs : r.status ≠ 201) :
    r.state.db = (wrRollback s1 key wa).db ∧ r.tempRemains = false := by
  unfold writeBody at h
  split at h
  · cases h; exact ⟨rfl, rfl⟩
  split at h
  · cases h; exact ⟨rfl, rfl⟩
  split at h
  · cases h; exact ⟨rfl, rfl⟩
  split at h
  case isFalse => cases h; exact ⟨rfl, rfl⟩
  split at h
  · cases h; exact ⟨rfl, rfl⟩
  split at h
  · cases h; exact ⟨rfl, rfl⟩
  split at h
  · cases h; exact ⟨rfl, rfl⟩
  split at h
  · cases h; exact ⟨rfl, rfl⟩
  simp only [putRecord, fromRecord_live _ (md5hex_len cfg (readBytes cfg v))] at h
  by_cases hpf : f.putFinal
  · simp only [hpf, ite_true] at h
    cases h
    refine ⟨?_, rfl⟩
    cases wa <;> simp [wrRollback]
  · simp only [hpf, ite_false] at h
    cases h
    simp at hs

/-- Claim C2: every `Write` that does not return 201 — declared length too large, empty body,
disallowed mime type, stream over the cap, or an injected failure at the reservation, directory
creation, temp-file creation, copy, fsync, rename, or final index-write step — leaves the key's
index record exactly as it was before the call and leaves no temp file behind.  In particular an
index-write failure after the rename restores the record (deleting the reservation of a
previously absent key).  The claim constrains the index record and temp/partial files; on that
one post-rename path the file at the final path is a complete blob holding the new bytes, which
the restored record makes unreachable for an absent key (GET 404s on the record first). -/
theorem write_failure_atomicity (cfg : KVConfig) (s : KVState) (key : Str) (v : Bytes)
    (valueLen : Int) (f : Faults) (r : WriteResult)
    (hw : write cfg s key v valueLen f = some r) (hs : r.status ≠ 201) :
    kvGet r.state.db key = kvGet s.db key ∧ r.tempRemains = false := by
  unfold write at hw
  split at hw
  · cases hw
    exact ⟨rfl, rfl⟩
  split at hw
  · exact Option.noConfusion hw
  case h_2 rec0 hrec0 =>
  split at hw
  case isTrue hHard =>
    have habs : kvGet s.db key = none := getRecord?_HARD s key rec0 hrec0 hHard
    split at hw
    · cases hw
      exact ⟨rfl, rfl⟩
    case h_2 s1 hput =>
      simp only [Option.some.injEq] at hw
      obtain ⟨hdb, htmp⟩ := writeBody_failure cfg s1 key v f true r hw hs
      refine ⟨?_, htmp⟩
      rw [hdb, habs]
      simp only [putRecord] at hput
      rw [show fromRecord ⟨Tomb.SOFT, []⟩ = some (deletedTag ++ []) from rfl] at hput
      by_cases hpr : f.putReserve
      · simp [hpr] at hput
      · simp only [hpr, ite_false, Option.some.injEq] at hput
        cases hput
        simp [wrRollback]
  case isFalse =>
    simp only [Option.some.injEq] at hw
    obtain ⟨hdb, htmp⟩ := writeBody_failure cfg s key v f false r hw hs
    rw [hdb]
    exact ⟨rfl, htmp⟩

/-- Witness for C2: a concrete rename-failure `Write` leaves the absent key absent and no temp
file. -/
theorem write_failure_atomicity_witness :
    write cfgW stateW ['a'] [1, 2, 3] 3 renameFault = some writeResF ∧
      (kvGet writeResF.state.db ['a'] = kvGet stateW.db ['a'] ∧
        writeResF.tempRemains = false) :=
  ⟨by decide,
    write_failure_atomicity cfgW stateW ['a'] [1, 2, 3] 3 renameFault writeResF
      (by decide) (by decide)⟩

/-! ### Claim C6: delete effects -/

theorem kvDel_kvPut_self {α : Type} (l : List (Str × α)) (k : Str) (v : α) :
    kvDel (kvPut l k v) k = kvDel l k := by
  induction l with
  | nil => simp [kvPut, kvDel]
  | cons e rest ih =>
    obtain ⟨k', v'⟩ := e
    by_cases h : k' = k <;> simp [kvPut, kvDel, h, ih]

/-- Counterexample to C6 as stated: (1) with the soft-delete policy flag set (as the shipped
server sets it), `Delete(k, unlink=false)` on a LIVE key returns 403 and removes nothing; and
(2) `Delete(k, unlink=true)` returns 204, writes the tombstone — but the blob file is still on
disk afterwards, although the claim says it is removed. -/
theorem delete_unlink_keeps_file :
    deleteOp cfgP sLive ['a'] false = some (403, sLive) ∧
      deleteOp cfgW sLive ['a'] true =
        some (204, ⟨[(['a'], deletedTag ++ hashTag ++ List.replicate 32 '0')],
          [(['a'], [1, 2, 3])]⟩) ∧
      kvGet ([(['a'], [1, 2, 3])] : List (Str × Bytes)) ['a'] = some [1, 2, 3] := by
  decide

/-- Claim C6 (amended): for a key holding a LIVE record — when the soft-delete policy flag is
unset and the blob file exists, `delete(k, unlink=false)` returns 204 and removes both the index
record and the blob file; `delete(k, unlink=true)` returns 204, replaces the record by a
`SOFT_DELETED` tombstone that keeps the hash, and leaves the blob file on disk (it is not
removed); in both cases no other key's record or blob file is touched. -/
theorem delete_effects (cfg : KVConfig) (s : KVState) (key d0 : Str) (rec : Record) (bs : Bytes)
    (hd : kvGet s.db key = some d0) (hrec : toRecord? d0 = some rec)
    (hlive : rec.deleted = Tomb.NO) :
    (cfg.softDelete = false → kvGet s.files key = some bs →
      deleteOp cfg s key false = some (204, ⟨kvDel s.db key, kvDel s.files key⟩)) ∧
    kvGet (kvDel s.db key) key = none ∧ kvGet (kvDel s.files key) key = none ∧
    deleteOp cfg s key true =
      some (204, { s with db := kvPut s.db key (softEncode rec.hash) }) ∧
    getRecord? { s with db := kvPut s.db key (softEncode rec.hash) } key =
      some ⟨Tomb.SOFT, rec.hash⟩ ∧
    (∀ k', k' ≠ key →
      kvGet (kvDel s.db key) k' = kvGet s.db k' ∧
      kvGet (kvDel s.files key) k' = kvGet s.files k' ∧
      kvGet (kvPut s.db key (softEncode rec.hash)) k' = kvGet s.db k') := by
  have hga : getRecord? s key = some rec := by simp [getRecord?, hd, hrec]
  have hlen := toRecord?_hash_len d0 rec hrec
  have hfr : fromRecord ⟨Tomb.SOFT, rec.hash⟩ = some (softEncode rec.hash) := by
    simp [fromRecord, softEncode]
  have hdec : toRecord? (softEncode rec.hash) = some ⟨Tomb.SOFT, rec.hash⟩ := by
    have hrt := fromRecord_roundtrip ⟨Tomb.SOFT, rec.hash⟩ (by simp) hlen
    rw [hfr] at hrt
    simpa using hrt
  refine ⟨?_, by simp, by simp, ?_, ?_, ?_⟩
  · intro hsd hfile
    simp [deleteOp, hga, hlive, putRecord, hfr, hsd, hfile, kvDel_kvPut_self]
  · simp [deleteOp, hga, hlive, putRecord, hfr]
  · simp [getRecord?, kvGet_kvPut_self, hdec]
  · intro k' hk'
    exact ⟨kvGet_kvDel_ne _ _ _ hk', kvGet_kvDel_ne _ _ _ hk',
      kvGet_kvPut_ne _ _ _ _ hk'⟩

/-- Witness for the amended C6 at the concrete one-key live store, with the frame checked at the
absent key `"b"`. -/
theorem delete_effects_witness :
    deleteOp cfgW sLive ['a'] false = some (204, ⟨kvDel sLive.db ['a'], kvDel sLive.files ['a']⟩) ∧
      deleteOp cfgW sLive ['a'] true =
        some (204, { sLive with db := kvPut sLive.db ['a'] (softEncode (List.replicate 32 '0')) }) ∧
      kvGet (kvPut sLive.db ['a'] (softEncode (List.replicate 32 '0'))) ['b'] =
        kvGet sLive.db ['b'] := by
  have h := delete_effects cfgW sLive ['a'] (hashTag ++ List.replicate 32 '0')
    ⟨Tomb.NO, List.replicate 32 '0'⟩ [1, 2, 3] (by decide) (by decide) rfl
  exact ⟨h.1 rfl (by decide), h.2.2.2.1, (h.2.2.2.2.2 ['b'] (by decide)).2.2⟩

/-! ### Claim C4: upload size boundary -/

/-- Claim C4 evaluation at the failing boundary input: against a 5-byte cap, a PUT whose body is
exactly 5 allowed-mime bytes with declared length 5 is rejected with 413 by the stream check
`written >= maxFileSize`, even though the declared-length check `valueLen > maxFileSize` admits
it (third conjunct) and a 4-byte body succeeds with 201 (second conjunct). -/
theorem write_exact_max_rejected :
    write cfgW stateW ['a'] (List.replicate 5 1) 5 noFaults = some ⟨413, stateW, false⟩ ∧
      (write cfgW stateW ['a'] (List.replicate 4 1) 4 noFaults).map WriteResult.status =
        some 201 ∧
      ¬((cfgW.maxFileSize : Int) < 5) := by
  decide

/-! ### Claim C5: list postcondition -/

/-- Claim C5 evaluation at the failing input: with the index holding the single key `"ab"` bound
to a `SOFT_DELETED` record (`"DELETED"`), prefix `"a"`, no start key and no limit, the query
with the `unlinked` flag set returns no keys at all (first conjunct) — the filter
`(rec.Deleted != NO) || (rec.Deleted != SOFT && unlinked)` skips every record once `unlinked`
is set, as the second conjunct shows for a LIVE record as well; without the flag a LIVE record
is listed (third conjunct). -/
theorem unlinked_listing_returns_nothing :
    queryHandler [(['a', 'b'], deletedTag)] ['a'] [] 0 true = some ⟨200, [], []⟩ ∧
      queryHandler [(['a', 'b'], [])] ['a'] [] 0 true = some ⟨200, [], []⟩ ∧
      queryHandler [(['a', 'b'], [])] ['a'] [] 0 false = some ⟨200, [['a', 'b']], []⟩ := by
  decide

/-! ### Claim C3: access-gate acceptance -/

/-- Counterexample to C3 as stated: a request carrying the correct API key `"k"` but also the
(expired) signature parameters `x-signature = "x"`, `x-expire = "0"` at `now_ms = 1` is rejected
with 401 ("signature expired") — the valid API key does not override the attached expired
signature. -/
theorem valid_key_expired_signature_rejected :
    verifyAccess (fun _ _ => []) ['k'] ['s'] ['k'] ['x'] ['0'] ['/', 'p'] 1 = 401 ∧
      (401 : Nat) ≠ 200 := by
  decide

theorem verifyAccess_absent (mac : Str → Str → Str) (secretKey signSecret : Str)
    (apiKey sig expireAt path : Str) (nowMs : Int) (h : ¬(sig ≠ [] ∧ expireAt ≠ [])) :
    verifyAccess mac secretKey signSecret apiKey sig expireAt path nowMs =
      if apiKey = secretKey then 200 else 401 := by
  unfold verifyAccess
  rw [if_neg h]

theorem verifyAccess_noparse (mac : Str → Str → Str) (secretKey signSecret : Str)
    (apiKey sig expireAt path : Str) (nowMs : Int) (h : sig ≠ [] ∧ expireAt ≠ [])
    (hpe : parseInt? expireAt = none) :
    verifyAccess mac secretKey signSecret apiKey sig expireAt path nowMs = 400 := by
  unfold verifyAccess
  rw [if_pos h, hpe]

theorem verifyAccess_present (mac : Str → Str → Str) (secretKey signSecret : Str)
    (apiKey sig expireAt path : Str) (nowMs : Int) (h : sig ≠ [] ∧ expireAt ≠ []) (em : Int)
    (hpe : parseInt? expireAt = some em) :
    verifyAccess mac secretKey signSecret apiKey sig expireAt path nowMs =
      if em < nowMs then 401
      else if apiKey = secretKey ∨ sig = signMsg mac (path ++ ':' :: expireAt) signSecret then 200
      else 401 := by
  unfold verifyAccess
  rw [if_pos h, hpe]

/-- Claim C3 (amended): `verify_access` accepts exactly when either (a) at least one of
`x-signature` / `x-expire` is absent and the API key matches under constant-time comparison, or
(b) both are present, `x-expire` parses as a 64-bit integer, `now_ms ≤ x-expire`, and the API
key matches or the HMAC of `"<path>:<x-expire>"` matches the signature.  In particular a valid
API key accompanied by malformed or expired signature parameters is rejected (400 resp. 401). -/
theorem verifyAccess_characterization (mac : Str → Str → Str) (secretKey signSecret : Str)
    (apiKey sig expireAt path : Str) (nowMs : Int) :
    verifyAccess mac secretKey signSecret apiKey sig expireAt path nowMs = 200 ↔
      (((sig = [] ∨ expireAt = []) ∧ apiKey = secretKey) ∨
        (sig ≠ [] ∧ expireAt ≠ [] ∧
          ∃ em, parseInt? expireAt = some em ∧ nowMs ≤ em ∧
            (apiKey = secretKey ∨ sig = signMsg mac (path ++ ':' :: expireAt) signSecret))) := by
  by_cases hpresent : sig ≠ [] ∧ expireAt ≠ []
  · obtain ⟨hs1, hs2⟩ := hpresent
    cases hpe : parseInt? expireAt with
    | none =>
      rw [verifyAccess_noparse mac secretKey signSecret apiKey sig expireAt path nowMs
        ⟨hs1, hs2⟩ hpe]
      constructor
      · intro h
        exact absurd h (by decide)
      · rintro (⟨h, -⟩ | ⟨-, -, em', hem', -⟩)
        · rcases h with h | h
          · exact absurd h hs1
          · exact absurd h hs2
        · exact Option.noConfusion hem'
    | some em =>
      rw [verifyAccess_present mac secretKey signSecret apiKey sig expireAt path nowMs
        ⟨hs1, hs2⟩ em hpe]
      by_cases hlt : em < nowMs
      · rw [if_pos hlt]
        constructor
        · intro h
          exact absurd h (by decide)
        · rintro (⟨h, -⟩ | ⟨-, -, em', hem', hle, -⟩)
          · rcases h with h | h
            · exact absurd h hs1
            · exact absurd h hs2
          · injection hem' with he
            subst he
            omega
      · rw [if_neg hlt]
        by_cases hok : apiKey = secretKey ∨
            sig = signMsg mac (path ++ ':' :: expireAt) signSecret
        · rw [if_pos hok]
          exact iff_of_true rfl (Or.inr ⟨hs1, hs2, em, rfl, by omega, hok⟩)
        · rw [if_neg hok]
          constructor
          · intro h
            exact absurd h (by decide)
          · rintro (⟨h, -⟩ | ⟨-, -, em', hem', -, hok'⟩)
            · rcases h with h | h
              · exact absurd h hs1
              · exact absurd h hs2
            · injection hem' with he
              subst he
              exact absurd hok' hok
  · rw [verifyAccess_absent mac secretKey signSecret apiKey sig expireAt path nowMs hpresent]
    by_cases hk : apiKey = secretKey
    · rw [if_pos hk]
      refine iff_of_true rfl (Or.inl ⟨?_, hk⟩)
      by_cases h1 : sig = []
      · exact Or.inl h1
      · right
        by_contra h2
        exact hpresent ⟨h1, h2⟩
    · rw [if_neg hk]
      constructor
      · intro h
        exact absurd h (by decide)
      · rintro (⟨-, hk'⟩ | ⟨hs1, hs2, -⟩)
        · exact absurd hk' hk
        · exact absurd ⟨hs1, hs2⟩ hpresent

/-! ### Claim C9: URL signer dispatch -/

theorem hasPre_as_append (a : Str) : ∀ p : Str, hasPre a p = true → ∃ rest, p = a ++ rest := by
  induction a with
  | nil => exact fun p _ => ⟨p, rfl⟩
  | cons c cs ih =>
    intro p h
    match p with
    | [] => exact absurd h (by simp [hasPre])
    | b :: p' =>
      unfold hasPre at h
      split at h
      case isTrue heq =>
        subst heq
        obtain ⟨rest, hr⟩ := ih p' h
        exact ⟨rest, by rw [List.cons_append, hr]⟩
      case isFalse => exact absurd h (by simp)

theorem blob_serve_excl {p : Str} (hb : hasPre blobTag p = true)
    (hs : hasPre serveTag p = true) : False := by
  obtain ⟨r1, h1⟩ := hasPre_as_append blobTag p hb
  obtain ⟨r2, h2⟩ := hasPre_as_append serveTag p hs
  rw [h1] at h2
  simp [blobTag, serveTag] at h2

theorem files_format_excl {p : Str} (hf : hasPre filesTag p = true)
    (hm : hasPre formatTag p = true) : False := by
  obtain ⟨r1, h1⟩ := hasPre_as_append filesTag p hf
  obtain ⟨r2, h2⟩ := hasPre_as_append formatTag p hm
  rw [h1] at h2
  simp [filesTag, formatTag] at h2

/-- Counterexample to C9 as stated: the client `SignURL` on `"/sign/files/a"` — remainder
`"/files"` — fails with the `invalid path` error instead of signing with an expiry (its expiring
branch is `"/blob"`, not `"/files"`). -/
theorem signURL_files_rejected :
    signURL (fun _ _ => []) [] 0
      ['/', 's', 'i', 'g', 'n', '/', 'f', 'i', 'l', 'e', 's', '/', 'a'] = none := by
  decide

/-- Claim C9 (amended): both signers strip the leading `"/sign"`; the client `SignURL` signs a
`"/blob"` remainder over `"<path>:<now_ms+1h>"` attaching `x-expire`, a `"/serve"` remainder
over the path after `"/serve"` with no expiry, and fails on every other remainder; the server
`Signature.ServeHTTP` does the same with `"/files"` as its expiring branch and `"/format"`
(not `"/serve"`) as its non-expiring branch, answering 400 otherwise. -/
theorem url_signer_dispatch (mac : Str → Str → Str) (secret : Str) (nowMs : Int) (path : Str) :
    (hasPre blobTag (trimPre signTag path) = true →
      signURL mac secret nowMs path =
        some ⟨trimPre signTag path, some (nowMs + 3600000),
          signMsg mac (trimPre signTag path ++ ':' :: intToStr (nowMs + 3600000)) secret⟩) ∧
    (hasPre serveTag (trimPre signTag path) = true →
      signURL mac secret nowMs path =
        some ⟨trimPre signTag path, none,
          signMsg mac (trimPre serveTag (trimPre signTag path)) secret⟩) ∧
    (hasPre blobTag (trimPre signTag path) = false →
      hasPre serveTag (trimPre signTag path) = false →
      signURL mac secret nowMs path = none) ∧
    (hasPre filesTag (trimPre signTag path) = true →
      serveSign mac secret nowMs path =
        some ⟨trimPre signTag path, some (nowMs + 3600000),
          signMsg mac (trimPre signTag path ++ ':' :: intToStr (nowMs + 3600000)) secret⟩) ∧
    (hasPre formatTag (trimPre signTag path) = true →
      serveSign mac secret nowMs path =
        some ⟨trimPre signTag path, none,
          signMsg mac (trimPre formatTag (trimPre signTag path)) secret⟩) ∧
    (hasPre filesTag (trimPre signTag path) = false →
      hasPre formatTag (trimPre signTag path) = false →
      serveSign mac secret nowMs path = none) := by
  refine ⟨?_, ?_, ?_, ?_, ?_, ?_⟩
  · intro hb
    simp [signURL, hb]
  · intro hs
    have hb : hasPre blobTag (trimPre signTag path) = false := by
      by_contra hcon
      exact blob_serve_excl (by simpa using hcon) hs
    simp [signURL, hb, hs]
  · intro hb hs
    simp [signURL, hb, hs]
  · intro hf
    simp [serveSign, hf]
  · intro hm
    have hf : hasPre filesTag (trimPre signTag path) = false := by
      by_contra hcon
      exact files_format_excl (by simpa using hcon) hm
    simp [serveSign, hf, hm]
  · intro hf hm
    simp [serveSign, hf, hm]

/-- Witness for the amended C9: a concrete `"/sign/blob/a"` signing by the client and a
`"/sign/serve/a"` rejection by the server. -/
theorem url_signer_dispatch_witness :
    signURL (fun _ _ => ['S']) [] 0 (signTag ++ blobTag ++ ['/', 'a']) =
        some ⟨blobTag ++ ['/', 'a'], some 3600000, ['S']⟩ ∧
      serveSign (fun _ _ => ['S']) [] 0 (signTag ++ serveTag ++ ['/', 'a']) = none := by
  have h1 := (url_signer_dispatch (fun _ _ => ['S']) [] 0 (signTag ++ blobTag ++ ['/', 'a'])).1
    (by decide)
  have h2 := (url_signer_dispatch (fun _ _ => ['S']) [] 0
    (signTag ++ serveTag ++ ['/', 'a'])).2.2.2.2.2 (by decide) (by decide)
  exact ⟨h1.trans (by decide), h2⟩

end RailwayImages
